import Mathlib

/-!
Verification of the bls directory-listing utility (src/main.rs) via a
shallow embedding in Lean 4.  Pure computations of the Rust source are
translated to Lean functions; filesystem reads, user/group database
lookups and argument parsing are modelled by explicit environments; a
filesystem is a finite tree; unwrap on a fallible read is modelled by
Option (with none standing for the panic).  Printing is modelled by
returning the list of printed lines (stdout) and diagnostics (stderr).
-/

namespace Bls

/-- The termcolor Color values used by the program (Green for files,
Blue for directories). -/
inductive Color where
  | green
  | blue
deriving DecidableEq, Repr

/-- The slice of std::fs::Metadata the program reads: directory bit,
numeric owner id (uid), numeric group id (gid) and the raw mode bits. -/
structure Metadata where
  is_dir : Bool
  uid : Nat
  gid : Nat
  mode : Nat
deriving DecidableEq, Repr

/-- The FileInfo struct of the source. -/
structure FileInfo where
  name : String
  file_type : String
  owner : String
  group : String
  permissions : String
  color : Color
deriving DecidableEq, Repr

/-- The system user/group name databases consulted by
users::get_user_by_uid and users::get_group_by_gid: each returns the
resolved name, or none when the id cannot be resolved. -/
structure SysEnv where
  userName : Nat → Option String
  groupName : Nat → Option String

/-- The character for one octal digit, as the Rust {:o} formatter
emits it. -/
def octChar (d : Nat) : Char := Char.ofNat (48 + d)

/-- Core of octal formatting, fuel-indexed (the fuel only serves
termination; fuel n + 1 always suffices for value n).  Mirrors the
digit loop of the Rust {:o} formatter: most significant digit first,
no leading zeros, a lone 0 digit for zero. -/
def octDigitsCore : Nat → Nat → List Char
  | 0, _ => []
  | f + 1, n => if n < 8 then [octChar n] else octDigitsCore f (n / 8) ++ [octChar (n % 8)]

/-- The Rust octal formatting expression (format spec {:o}) for a
nonnegative n. -/
def formatOctal (n : Nat) : String := ⟨octDigitsCore (n + 1) n⟩

/-- Octal value represented by a digit string (used to state idempotence
of permission formatting). -/
def parseOctal (s : String) : Nat := s.data.foldl (fun a c => 8 * a + (c.toNat - 48)) 0

/-- The final path segment of a path (modelled as its list of segments),
as Path::file_name().unwrap_or_default() seen through to_string_lossy:
the last segment, or the empty string when there is none. -/
def fileName (path : List String) : String := path.getLast?.getD ""

/-- The FileInfo built by create_file_info once fs::metadata has
succeeded: type from the directory bit, owner and group via map_or
with the "Unknown" fallback, permissions by octal-formatting
mode & 0o777. -/
def mkFileInfo (env : SysEnv) (path : List String) (m : Metadata) (color : Color) : FileInfo :=
  { name := fileName path
    file_type := if m.is_dir then "Directory" else "File"
    owner := (env.userName m.uid).elim "Unknown" id
    group := (env.groupName m.gid).elim "Unknown" id
    permissions := formatOctal (m.mode.land 0o777)
    color := color }

/-- create_file_info of the source.  The argument meta is the outcome of
fs::metadata(path); the source calls .unwrap() on it, so a failed read
(none) yields none here, standing for the panic; a successful read
builds the FileInfo exactly as the source does. -/
def create_file_info (env : SysEnv) (path : List String) (meta : Option Metadata)
    (color : Color) : Option FileInfo :=
  meta.map (fun m => mkFileInfo env path m color)

/-- A finite filesystem tree: regular files and directories with an
ordered list of children. -/
inductive FSTree where
  | file (name : String)
  | dir (name : String) (children : List FSTree)

/-- Name of the root node of a tree. -/
def FSTree.name : FSTree → String
  | .file n => n
  | .dir n _ => n

/-- One entry yielded by the WalkDir traversal: the full path of the
entry (as segments), its depth relative to the walk root (root = 0),
and whether it is a directory. -/
structure WalkEntry where
  path : List String
  depth : Nat
  isDir : Bool
deriving DecidableEq, Repr

mutual
/-- The entries yielded by WalkDir::new(selfPath).max_depth(d) at the
subtree t whose own path is selfPath and whose own depth is depth:
depth-first, parent before children, an entry yielded only when its
depth is at most the bound d. -/
def walkNode (d : Nat) (selfPath : List String) (depth : Nat) : FSTree → List WalkEntry
  | .file _ => if depth ≤ d then [⟨selfPath, depth, false⟩] else []
  | .dir _ cs =>
      (if depth ≤ d then [⟨selfPath, depth, true⟩] else []) ++
        (if depth < d then walkList d selfPath (depth + 1) cs else [])
/-- Traversal of a list of sibling subtrees below parentPath. -/
def walkList (d : Nat) (parentPath : List String) (depth : Nat) : List FSTree → List WalkEntry
  | [] => []
  | c :: cs => walkNode d (parentPath ++ [c.name]) depth c ++ walkList d parentPath depth cs
end

mutual
/-- All entries of the subtree t (the unbounded traversal), same order
and path/depth conventions as walkNode. -/
def allNode (selfPath : List String) (depth : Nat) : FSTree → List WalkEntry
  | .file _ => [⟨selfPath, depth, false⟩]
  | .dir _ cs => ⟨selfPath, depth, true⟩ :: allList selfPath (depth + 1) cs
/-- All entries of a list of sibling subtrees below parentPath. -/
def allList (parentPath : List String) (depth : Nat) : List FSTree → List WalkEntry
  | [] => []
  | c :: cs => allNode (parentPath ++ [c.name]) depth c ++ allList parentPath depth cs
end

mutual
/-- Height of a tree: greatest depth of any node below the root
(a lone file or an empty directory has height 0). -/
def heightNode : FSTree → Nat
  | .file _ => 0
  | .dir _ cs => heightList cs
/-- One plus the greatest height among sibling subtrees (0 when none). -/
def heightList : List FSTree → Nat
  | [] => 0
  | c :: cs => max (heightNode c + 1) (heightList cs)
end

/-- usize::MAX on a 64-bit target, the depth bound the source passes to
max_depth when the recursive flag is set. -/
def usizeMax : Nat := 2 ^ 64 - 1

/-- The depth bound chosen at line 81 of the source: usize::MAX when
recursive, else 1. -/
def maxDepthOf (recursive : Bool) : Nat := if recursive then usizeMax else 1

/-- The Rust expression "  ".repeat(depth). -/
def strRepeat (s : String) (n : Nat) : String := String.join (List.replicate n s)

/-- Left-justified fixed-width formatting {:<w} of one field: pad with
spaces up to width w, never truncate. -/
def leftJustify (w : Nat) (s : String) : String :=
  s ++ ⟨List.replicate (w - s.length) ' '⟩

/-- The name_display local of display_with_color: the bare name at
depth 0, otherwise the indentation (two spaces per depth level)
followed by the marker and the name. -/
def nameDisplay (name : String) (depth : Nat) : String :=
  if depth > 0 then strRepeat "  " depth ++ "> " ++ name else name

/-- The line printed by display_with_color: five left-justified fields
of widths 60, 10, 20, 20, 10 (name display, type, owner, group,
permissions), separated by single spaces. -/
def display_with_color (fi : FileInfo) (depth : Nat) : String :=
  leftJustify 60 (nameDisplay fi.name depth) ++ " " ++
    leftJustify 10 fi.file_type ++ " " ++
    leftJustify 20 fi.owner ++ " " ++
    leftJustify 20 fi.group ++ " " ++
    leftJustify 10 fi.permissions

/-- The column-header line printed once by list_files_and_dirs, using
the same five-field format string. -/
def headerLine : String :=
  leftJustify 60 "Name" ++ " " ++ leftJustify 10 "Type" ++ " " ++
    leftJustify 20 "Owner" ++ " " ++ leftJustify 20 "Group" ++ " " ++
    leftJustify 10 "Permissions"

/-- The literal fallback line of the source. -/
def noEntriesLine : String := "No files or directories found."

/-- Rendering of a path for the per-path section header, modelling
to_str().unwrap_or on segment lists (always valid UTF-8 here). -/
def pathToStr (p : List String) : String := String.intercalate "/" p

/-- The per-path section header: a leading newline, the literal
"Listing in: ", and the path. -/
def listingHeader (p : List String) : String := "\nListing in: " ++ pathToStr p

/-- The Rust char-pattern test starts_with of a dot: whether the first
character of the string is a dot (false for the empty string). -/
def startsWithDot (s : String) : Bool :=
  match s.data with
  | [] => false
  | c :: _ => c == '.'

/-- The hidden filter of lines 88-90 of the source: skip when hidden
files are not shown and the final path segment starts with a dot. -/
def entrySkipped (show_hidden : Bool) (path : List String) : Bool :=
  !show_hidden && startsWithDot (fileName path)

/-- The color chosen for an entry: Green at the is_file branch, Blue at
the is_dir branch. -/
def colorOf (isDir : Bool) : Color := if isDir then Color.blue else Color.green

/-- The lines printed for the walked entries of one path, in walk
order: each entry passes the hidden filter or is skipped; a surviving
entry is resolved (fs::metadata via the metaOf oracle — all walked
entries of a static tree are readable) and rendered. -/
def entryLines (env : SysEnv) (metaOf : List String → Metadata) (show_hidden : Bool) :
    List WalkEntry → List String
  | [] => []
  | e :: es =>
    if entrySkipped show_hidden e.path then entryLines env metaOf show_hidden es
    else display_with_color (mkFileInfo env e.path (metaOf e.path) (colorOf e.isDir)) e.depth ::
      entryLines env metaOf show_hidden es

/-- The lines printed while processing one supplied path (paired with
the subtree rooted there): its section header, then its entry lines. -/
def pathLines (env : SysEnv) (metaOf : List String → Metadata) (recursive show_hidden : Bool)
    (pt : List String × FSTree) : List String :=
  listingHeader pt.1 ::
    entryLines env metaOf show_hidden (walkNode (maxDepthOf recursive) pt.1 0 pt.2)

/-- Whether processing one supplied path sets the has_entries flag:
some walked entry survives the hidden filter (every walked entry of the
tree model is a file or a directory, so every survivor matches). -/
def pathHasEntries (recursive show_hidden : Bool) (pt : List String × FSTree) : Bool :=
  (walkNode (maxDepthOf recursive) pt.1 0 pt.2).any
    (fun e => !entrySkipped show_hidden e.path)

/-- The entries of one supplied path that the listing keeps: the walked
entries surviving the hidden filter (exactly the entries rendered, by
entryLines_eq). -/
def listedEntries (recursive show_hidden : Bool) (pt : List String × FSTree) : List WalkEntry :=
  (walkNode (maxDepthOf recursive) pt.1 0 pt.2).filter
    (fun e => !entrySkipped show_hidden e.path)

/-- list_files_and_dirs of the source: prints the column header, then
per supplied path a section header and the matching entries, then the
fallback line when no entry matched anywhere; returns io::Result
Ok(()). The supplied paths come paired with the subtree found at each
path. -/
def list_files_and_dirs (env : SysEnv) (metaOf : List String → Metadata)
    (pairs : List (List String × FSTree)) (recursive show_hidden : Bool) :
    List String × Except String Unit :=
  (headerLine ::
    ((pairs.map (pathLines env metaOf recursive show_hidden)).flatten ++
      (if pairs.any (pathHasEntries recursive show_hidden) then [] else [noEntriesLine])),
   Except.ok ())

/-- The parsed invocation configuration: supplied paths (each paired
with the subtree at that path), recursive flag, show-hidden flag. -/
structure Invocation where
  paths : List (List String × FSTree)
  recursive : Bool
  show_hidden : Bool

/-- main of the source, as (stdout lines, stderr lines): with no path
arguments it prints the help text (supplied by the argument parser) and
returns; otherwise it runs list_files_and_dirs and reports an error
value, if any, on stderr. -/
def main (env : SysEnv) (metaOf : List String → Metadata) (helpText : String)
    (inv : Invocation) : List String × List String :=
  if inv.paths.isEmpty then ([helpText], [])
  else
    match list_files_and_dirs env metaOf inv.paths inv.recursive inv.show_hidden with
    | (out, Except.ok _) => (out, [])
    | (out, Except.error e) => (out, ["Error listing files and directories: " ++ e])

/-! ## Shared lemmas -/

set_option maxRecDepth 8192 in
/-- Facts about octal formatting of all 512 possible values of the low
nine permission bits: at least one and at most three digits, every
digit between 0 and 7, and parsing the string back yields the value. -/
theorem octFacts : ∀ n < 512, 1 ≤ (formatOctal n).length ∧ (formatOctal n).length ≤ 3 ∧
    (∀ c ∈ (formatOctal n).data, '0' ≤ c ∧ c ≤ '7') ∧
    parseOctal (formatOctal n) = n := by decide

/-- Masking with 0o777 keeps the value below 512. -/
theorem land_777_lt (n : Nat) : n.land 0o777 < 512 :=
  Nat.and_lt_two_pow n (show 0o777 < 2 ^ 9 by norm_num)

mutual
/-- Every entry of the unbounded traversal of a subtree placed at a
given depth has at least that depth. -/
theorem depth_le_of_mem_allNode (sp : List String) (depth : Nat) (t : FSTree) (e : WalkEntry)
    (h : e ∈ allNode sp depth t) : depth ≤ e.depth := by
  match t with
  | .file n => simp [allNode] at h; simp [h]
  | .dir n cs =>
    simp only [allNode, List.mem_cons] at h
    rcases h with h | h
    · simp [h]
    · have := depth_le_of_mem_allList sp (depth + 1) cs e h
      omega
/-- List version of depth_le_of_mem_allNode. -/
theorem depth_le_of_mem_allList (pp : List String) (depth : Nat) (cs : List FSTree) (e : WalkEntry)
    (h : e ∈ allList pp depth cs) : depth ≤ e.depth := by
  match cs with
  | [] => simp [allList] at h
  | c :: cs' =>
    simp only [allList, List.mem_append] at h
    rcases h with h | h
    · exact depth_le_of_mem_allNode _ depth c e h
    · exact depth_le_of_mem_allList pp depth cs' e h
end

mutual
/-- Every entry of the unbounded traversal of a subtree placed at a
given depth has depth at most that depth plus the height of the
subtree. -/
theorem depth_bound_of_mem_allNode (sp : List String) (depth : Nat) (t : FSTree) (e : WalkEntry)
    (h : e ∈ allNode sp depth t) : e.depth ≤ depth + heightNode t := by
  match t with
  | .file n => simp [allNode] at h; simp [h]
  | .dir n cs =>
    simp only [allNode, List.mem_cons] at h
    rcases h with h | h
    · simp [h]
    · have := depth_bound_of_mem_allList sp (depth + 1) cs e h
      simp only [heightNode]
      omega
/-- List version of depth_bound_of_mem_allNode. -/
theorem depth_bound_of_mem_allList (pp : List String) (depth : Nat) (cs : List FSTree)
    (e : WalkEntry) (h : e ∈ allList pp depth cs) : e.depth < depth + heightList cs := by
  match cs with
  | [] => simp [allList] at h
  | c :: cs' =>
    simp only [allList, List.mem_append] at h
    simp only [heightList]
    rcases h with h | h
    · have := depth_bound_of_mem_allNode _ depth c e h
      omega
    · have := depth_bound_of_mem_allList pp depth cs' e h
      omega
end

mutual
/-- Characterization of the bounded traversal: it yields exactly the
entries of the unbounded traversal whose depth is within the bound. -/
theorem mem_walkNode_iff (d : Nat) (sp : List String) (depth : Nat) (t : FSTree) (e : WalkEntry) :
    e ∈ walkNode d sp depth t ↔ e ∈ allNode sp depth t ∧ e.depth ≤ d := by
  match t with
  | .file n =>
    by_cases h : depth ≤ d
    · simp only [walkNode, allNode, if_pos h, List.mem_singleton]
      constructor
      · rintro rfl; exact ⟨rfl, h⟩
      · exact fun hh => hh.1
    · simp only [walkNode, allNode, if_neg h, List.not_mem_nil, List.mem_singleton, false_iff,
        not_and]
      rintro rfl
      simpa using h
  | .dir n cs =>
    simp only [walkNode, allNode, List.mem_append, List.mem_cons]
    by_cases h1 : depth ≤ d
    · by_cases h2 : depth < d
      · simp only [if_pos h1, if_pos h2, List.mem_append, List.mem_singleton]
        rw [mem_walkList_iff]
        constructor
        · rintro (rfl | ⟨hm, hd⟩)
          · exact ⟨Or.inl rfl, h1⟩
          · exact ⟨Or.inr hm, hd⟩
        · rintro ⟨rfl | hm, hd⟩
          · exact Or.inl rfl
          · exact Or.inr ⟨hm, hd⟩
      · simp only [if_pos h1, if_neg h2, List.mem_append, List.mem_singleton, List.not_mem_nil,
          or_false]
        constructor
        · rintro rfl; exact ⟨Or.inl rfl, h1⟩
        · rintro ⟨rfl | hm, hd⟩
          · rfl
          · exfalso
            have := depth_le_of_mem_allList sp (depth + 1) cs e hm
            omega
    · have h2 : ¬ depth < d := by omega
      simp only [if_neg h1, if_neg h2, List.mem_append, List.not_mem_nil, or_self, false_iff,
        not_and]
      rintro (rfl | hm)
      · simpa using h1
      · have := depth_le_of_mem_allList sp (depth + 1) cs e hm
        omega
/-- List version of mem_walkNode_iff. -/
theorem mem_walkList_iff (d : Nat) (pp : List String) (depth : Nat) (cs : List FSTree)
    (e : WalkEntry) :
    e ∈ walkList d pp depth cs ↔ e ∈ allList pp depth cs ∧ e.depth ≤ d := by
  match cs with
  | [] => simp [walkList, allList]
  | c :: cs' =>
    simp only [walkList, allList, List.mem_append]
    rw [mem_walkNode_iff, mem_walkList_iff]
    tauto
end

/-- The characters of a left-justified field: the field, then the
padding spaces (none when the field overflows its width). -/
theorem leftJustify_data (w : Nat) (s : String) :
    (leftJustify w s).data = s.data ++ List.replicate (w - s.length) ' ' := by
  simp [leftJustify, String.data_append]

/-- Length of a left-justified field: the width, or the field length
when it overflows. -/
theorem leftJustify_length (w : Nat) (s : String) :
    (leftJustify w s).length = max w s.length := by
  have h0 : (leftJustify w s).length = (leftJustify w s).data.length := rfl
  have h1 : s.length = s.data.length := rfl
  rw [h0, leftJustify_data, List.length_append, List.length_replicate]
  omega

/-- An overlong field is not truncated: it is passed through whole. -/
theorem leftJustify_of_le (w : Nat) (s : String) (h : w ≤ s.length) : leftJustify w s = s := by
  have h0 : w - s.length = 0 := by omega
  simp [leftJustify, h0]

/-- Length of the two-space indentation repeated n times. -/
theorem strRepeat_two_length (n : Nat) : (strRepeat "  " n).length = 2 * n := by
  have h0 : (strRepeat "  " n).length = (strRepeat "  " n).data.length := rfl
  rw [h0, strRepeat, String.join_eq]
  simp [List.map_replicate, List.length_flatten, List.sum_replicate]
  omega

/-- Every rendered data line is at least 124 characters long (five
fields of widths 60, 10, 20, 20, 10 and four single-space
separators). -/
theorem display_with_color_length (fi : FileInfo) (depth : Nat) :
    124 ≤ (display_with_color fi depth).length := by
  simp only [display_with_color, String.length_append, leftJustify_length]
  have h1 : (" " : String).length = 1 := rfl
  omega

/-- A per-path section header is never the fallback line (it starts
with a newline). -/
theorem listingHeader_ne_noEntriesLine (p : List String) : listingHeader p ≠ noEntriesLine := by
  intro h
  have h2 : (listingHeader p).data.head? = noEntriesLine.data.head? := by rw [h]
  rw [listingHeader, String.data_append] at h2
  rw [show ("\nListing in: ").data = '\n' :: ("Listing in: ").data from rfl] at h2
  simp [noEntriesLine] at h2

/-- The column header is never the fallback line. -/
theorem headerLine_ne_noEntriesLine : headerLine ≠ noEntriesLine := by decide

/-- A rendered entry line is never the fallback line (their lengths
differ). -/
theorem display_ne_noEntriesLine (fi : FileInfo) (depth : Nat) :
    display_with_color fi depth ≠ noEntriesLine := by
  intro h
  have h1 := display_with_color_length fi depth
  rw [h] at h1
  have h2 : noEntriesLine.length = 30 := by decide
  omega

/-- The lines printed for a list of walked entries are exactly the
renderings of the entries surviving the hidden filter, in order. -/
theorem entryLines_eq (env : SysEnv) (metaOf : List String → Metadata) (x : Bool)
    (es : List WalkEntry) :
    entryLines env metaOf x es =
      (es.filter fun e => !entrySkipped x e.path).map
        (fun e => display_with_color (mkFileInfo env e.path (metaOf e.path) (colorOf e.isDir))
          e.depth) := by
  induction es with
  | nil => rfl
  | cons e es ih =>
    by_cases h : entrySkipped x e.path
    · simp [entryLines, h, List.filter, ih]
    · simp [entryLines, h, List.filter, ih]

/-- The fallback line never occurs among the lines printed while
processing one supplied path. -/
theorem noEntriesLine_not_mem_pathLines (env : SysEnv) (metaOf : List String → Metadata)
    (r x : Bool) (pt : List String × FSTree) :
    noEntriesLine ∉ pathLines env metaOf r x pt := by
  intro h
  rw [pathLines, List.mem_cons, entryLines_eq] at h
  rcases h with h | h
  · exact listingHeader_ne_noEntriesLine pt.1 h.symm
  · rw [List.mem_map] at h
    obtain ⟨e, _, he⟩ := h
    exact display_ne_noEntriesLine _ _ he

/-- The fallback line never occurs in the per-path output of any of the
supplied paths. -/
theorem noEntriesLine_not_mem_body (env : SysEnv) (metaOf : List String → Metadata)
    (pairs : List (List String × FSTree)) (r x : Bool) :
    noEntriesLine ∉ (pairs.map (pathLines env metaOf r x)).flatten := by
  intro h
  rw [List.mem_flatten] at h
  obtain ⟨l, hl, hm⟩ := h
  rw [List.mem_map] at hl
  obtain ⟨pt, _, rfl⟩ := hl
  exact noEntriesLine_not_mem_pathLines env metaOf r x pt hm

/-! ## Claim theorems -/

/-- C1 counterexample: the claim says the permissions field is always
exactly 3 octal digits, but for a readable path whose mode has low nine
bits 0o007 the field produced by create_file_info is the one-digit
string "7". -/
theorem C1_counterexample :
    (create_file_info ⟨fun _ => none, fun _ => none⟩ ["f"]
        (some ⟨false, 0, 0, 7⟩) Color.green).map FileInfo.permissions = some "7" ∧
    ¬ ("7" : String).length = 3 := by
  exact ⟨rfl, by decide⟩

/-- C1 (amended): for every path whose metadata is readable, the
permissions field produced by create_file_info is the unpadded octal
rendering of the low 9 permission bits of the mode: between 1 and 3
octal digits (each digit 0-7), and formatting is idempotent (rendering
the value the field denotes reproduces the field). -/
theorem C1_permissions_octal_format :
    ∀ (env : SysEnv) (path : List String) (m : Metadata) (color : Color) (fi : FileInfo),
      create_file_info env path (some m) color = some fi →
        1 ≤ fi.permissions.length ∧ fi.permissions.length ≤ 3 ∧
        (∀ c ∈ fi.permissions.data, '0' ≤ c ∧ c ≤ '7') ∧
        formatOctal (parseOctal fi.permissions) = fi.permissions := by
  intro env path m color fi h
  simp only [create_file_info, Option.map_some', Option.some.injEq] at h
  subst h
  have hb := land_777_lt m.mode
  have hf := octFacts (m.mode.land 0o777) hb
  refine ⟨hf.1, hf.2.1, hf.2.2.1, ?_⟩
  show formatOctal (parseOctal (formatOctal (m.mode.land 0o777))) = _
  rw [hf.2.2.2]
  rfl

/-- C1 witness: the amended theorem applied to a concrete readable
path with mode 0o644. -/
theorem C1_witness :
    (mkFileInfo ⟨fun _ => none, fun _ => none⟩ ["f"] ⟨false, 0, 0, 420⟩
        Color.green).permissions.length ≤ 3 :=
  (C1_permissions_octal_format ⟨fun _ => none, fun _ => none⟩ ["f"] ⟨false, 0, 0, 420⟩
    Color.green _ rfl).2.1

/-- C2: with the recursive flag false the walk (depth bound 1) yields
exactly the entries of depth at most 1 — the root and its immediate
children — and with the flag true (depth bound usize::MAX) it yields
every entry of the tree, at unbounded depth, as long as the height of
the tree fits in usize. -/
theorem C2_depth_bound (r : List String) (t : FSTree) :
    (∀ e, e ∈ walkNode (maxDepthOf false) r 0 t ↔ e ∈ allNode r 0 t ∧ e.depth ≤ 1) ∧
    (heightNode t ≤ usizeMax →
      ∀ e, e ∈ walkNode (maxDepthOf true) r 0 t ↔ e ∈ allNode r 0 t) := by
  constructor
  · intro e
    exact mem_walkNode_iff 1 r 0 t e
  · intro hh e
    show e ∈ walkNode usizeMax r 0 t ↔ _
    rw [mem_walkNode_iff]
    constructor
    · exact fun x => x.1
    · intro hm
      refine ⟨hm, ?_⟩
      have := depth_bound_of_mem_allNode r 0 t e hm
      omega

/-- C2 witness: on the tree r containing file a and directory s
containing file b, the non-recursive walk yields a at depth 1 and the
recursive walk yields b at depth 2. -/
theorem C2_witness :
    (⟨["r", "a"], 1, false⟩ : WalkEntry) ∈
      walkNode (maxDepthOf false) ["r"] 0 (.dir "r" [.file "a", .dir "s" [.file "b"]]) ∧
    (⟨["r", "s", "b"], 2, false⟩ : WalkEntry) ∈
      walkNode (maxDepthOf true) ["r"] 0 (.dir "r" [.file "a", .dir "s" [.file "b"]]) := by
  constructor
  · exact ((C2_depth_bound ["r"] _).1 _).mpr (by constructor <;> decide)
  · exact ((C2_depth_bound ["r"] _).2 (by decide) _).mpr (by decide)

/-- C3: an entry is skipped iff hidden entries are not shown and its
final path segment starts with a dot; the filter depends only on the
final segment (an entry below a dot-prefixed ancestor is still listed
when its own name has no dot); with show_hidden true nothing is
filtered out; and the listed lines are exactly the renderings of the
surviving entries. -/
theorem C3_hidden_filter :
    ∀ (env : SysEnv) (metaOf : List String → Metadata) (x : Bool) (es : List WalkEntry),
      (entryLines env metaOf x es =
        (es.filter fun e => !entrySkipped x e.path).map
          (fun e => display_with_color (mkFileInfo env e.path (metaOf e.path) (colorOf e.isDir))
            e.depth)) ∧
      (∀ p, entrySkipped false p = startsWithDot (fileName p)) ∧
      (∀ p q, p.getLast? = q.getLast? → entrySkipped x p = entrySkipped x q) ∧
      (∀ (anc : List String) (nm : String), startsWithDot nm = false →
        entrySkipped x (anc ++ [nm]) = false) ∧
      (∀ p, entrySkipped true p = false) := by
  intro env metaOf x es
  refine ⟨entryLines_eq env metaOf x es, ?_, ?_, ?_, ?_⟩
  · intro p
    simp [entrySkipped]
  · intro p q h
    simp [entrySkipped, fileName, h]
  · intro anc nm h
    simp [entrySkipped, fileName, List.getLast?_concat, h]
  · intro p
    simp [entrySkipped]

/-- C3 witness: a file named cfg below the hidden directory .git is not
skipped — the filter looks only at the final segment. -/
theorem C3_witness :
    entrySkipped false (["r", ".git"] ++ ["cfg"]) = false :=
  (C3_hidden_filter ⟨fun _ => none, fun _ => none⟩ (fun _ => ⟨false, 0, 0, 0⟩) false
    []).2.2.2.1 ["r", ".git"] "cfg" (by decide)

/-- C4: the fallback line occurs in the output exactly once when no
entry matched across all supplied paths combined, and never otherwise;
when printed it is the very last line, after all paths are
processed. -/
theorem C4_fallback_line (env : SysEnv) (metaOf : List String → Metadata)
    (pairs : List (List String × FSTree)) (r x : Bool) :
    ((list_files_and_dirs env metaOf pairs r x).1.count noEntriesLine =
      if pairs.any (pathHasEntries r x) then 0 else 1) ∧
    (pairs.any (pathHasEntries r x) = false →
      (list_files_and_dirs env metaOf pairs r x).1.getLast? = some noEntriesLine) := by
  have hbody := noEntriesLine_not_mem_body env metaOf pairs r x
  have hbody0 : ((pairs.map (pathLines env metaOf r x)).flatten).count noEntriesLine = 0 :=
    List.count_eq_zero.mpr hbody
  have hhead : (headerLine == noEntriesLine) = false := by
    simpa using headerLine_ne_noEntriesLine
  constructor
  · by_cases h : pairs.any (pathHasEntries r x)
    · simp only [list_files_and_dirs, h, if_true, List.append_nil, List.count_cons, hbody0]
      simp [hhead]
    · simp only [list_files_and_dirs, h, Bool.false_eq_true, if_false, List.count_cons,
        List.count_append, hbody0]
      simp [hhead]
  · intro h
    simp only [list_files_and_dirs, h, Bool.false_eq_true, if_false]
    rw [show headerLine :: ((pairs.map (pathLines env metaOf r x)).flatten ++ [noEntriesLine]) =
      (headerLine :: (pairs.map (pathLines env metaOf r x)).flatten) ++ [noEntriesLine] from rfl]
    exact List.getLast?_concat _

/-- C4 witness: with a single supplied path holding only one hidden
file and hidden entries not shown, nothing matches and the output ends
with the fallback line. -/
theorem C4_witness :
    (list_files_and_dirs ⟨fun _ => none, fun _ => none⟩ (fun _ => ⟨false, 0, 0, 0⟩)
        [([".h"], .file ".h")] false false).1.getLast? = some noEntriesLine :=
  (C4_fallback_line ⟨fun _ => none, fun _ => none⟩ (fun _ => ⟨false, 0, 0, 0⟩)
    [([".h"], .file ".h")] false false).2 (by decide)

/-- C5: create_file_info asserts success of the metadata read — a
failed read is unrecoverable for the call (modelled by none, the
panic); under a successful read it returns a descriptor whose type is
Directory when the metadata says directory and File otherwise. -/
theorem C5_metadata_unwrap (env : SysEnv) (path : List String) (color : Color) :
    create_file_info env path none color = none ∧
    ∀ m : Metadata, ∃ fi, create_file_info env path (some m) color = some fi ∧
      fi.file_type = (if m.is_dir then "Directory" else "File") :=
  ⟨rfl, fun m => ⟨mkFileInfo env path m color, rfl, rfl⟩⟩

/-- C6 counterexample: on a tree consisting of a single non-hidden
file, the entries listed with show_hidden enabled are the same set as
with it disabled — not a strict superset. -/
theorem C6_counterexample :
    ¬ ((listedEntries false false (["a"], FSTree.file "a")).toFinset ⊂
        (listedEntries false true (["a"], FSTree.file "a")).toFinset) := by
  decide

/-- C6 (amended): for every filesystem tree and configuration, the set
of entries listed with show_hidden enabled is a superset of the set
listed with it disabled — strict exactly when the walk visits at least
one entry whose final segment starts with a dot. -/
theorem C6_hidden_superset (r : Bool) (pt : List String × FSTree) :
    (listedEntries r false pt).toFinset ⊆ (listedEntries r true pt).toFinset ∧
    ((listedEntries r false pt).toFinset ⊂ (listedEntries r true pt).toFinset ↔
      ∃ e ∈ walkNode (maxDepthOf r) pt.1 0 pt.2, startsWithDot (fileName e.path)) := by
  have htrue : listedEntries r true pt = walkNode (maxDepthOf r) pt.1 0 pt.2 := by
    rw [listedEntries, List.filter_eq_self]
    intro a _
    simp [entrySkipped]
  have hsub : (listedEntries r false pt).toFinset ⊆ (listedEntries r true pt).toFinset := by
    intro e he
    rw [List.mem_toFinset] at he ⊢
    rw [htrue]
    exact List.mem_of_mem_filter he
  refine ⟨hsub, ?_⟩
  rw [Finset.ssubset_iff_of_subset hsub]
  constructor
  · rintro ⟨e, heT, heF⟩
    rw [List.mem_toFinset, htrue] at heT
    rw [List.mem_toFinset, listedEntries, List.mem_filter] at heF
    refine ⟨e, heT, ?_⟩
    by_contra hc
    exact heF ⟨heT, by simp_all [entrySkipped]⟩
  · rintro ⟨e, heW, hdot⟩
    refine ⟨e, ?_, ?_⟩
    · rw [List.mem_toFinset, htrue]
      exact heW
    · rw [List.mem_toFinset, listedEntries, List.mem_filter]
      rintro ⟨-, hpass⟩
      simp [entrySkipped, hdot] at hpass

/-- C7: the rendered line consists of the five left-justified fields of
widths 60, 10, 20, 20, 10 in order name, type, owner, group,
permissions; the name is bare at depth 0 and prefixed by two spaces per
depth level plus the marker at positive depth; padding never truncates
and an overlong field passes through whole. -/
theorem C7_render_fields (fi : FileInfo) (d : Nat) :
    display_with_color fi d =
      leftJustify 60 (nameDisplay fi.name d) ++ " " ++ leftJustify 10 fi.file_type ++ " " ++
        leftJustify 20 fi.owner ++ " " ++ leftJustify 20 fi.group ++ " " ++
        leftJustify 10 fi.permissions ∧
    (d = 0 → nameDisplay fi.name d = fi.name) ∧
    (0 < d → nameDisplay fi.name d = strRepeat "  " d ++ "> " ++ fi.name) ∧
    (strRepeat "  " d).length = 2 * d ∧
    (∀ w s, (leftJustify w s).length = max w s.length) ∧
    (∀ w s, (leftJustify w s).data = s.data ++ List.replicate (w - s.length) ' ') ∧
    (∀ w s, w ≤ s.length → leftJustify w s = s) := by
  refine ⟨rfl, ?_, ?_, strRepeat_two_length d, leftJustify_length, leftJustify_data,
    leftJustify_of_le⟩
  · rintro rfl
    rfl
  · intro hd
    rw [nameDisplay, if_pos hd]

/-- C7 witness: the theorem applied at a concrete descriptor and depth
1, where the name is indented by one level and the marker. -/
theorem C7_witness :
    nameDisplay (⟨"n", "File", "o", "g", "7", Color.green⟩ : FileInfo).name 1 =
      strRepeat "  " 1 ++ "> " ++ (⟨"n", "File", "o", "g", "7", Color.green⟩ : FileInfo).name :=
  (C7_render_fields ⟨"n", "File", "o", "g", "7", Color.green⟩ 1).2.2.1 (by decide)

/-- C8: for every readable path, create_file_info never fails on
owner/group resolution: the owner and group fields fall back to the
literal "Unknown" when the id cannot be resolved and carry the resolved
name otherwise. -/
theorem C8_unknown_fallback (env : SysEnv) (path : List String) (m : Metadata) (color : Color) :
    ∃ fi, create_file_info env path (some m) color = some fi ∧
      (env.userName m.uid = none → fi.owner = "Unknown") ∧
      (∀ nm, env.userName m.uid = some nm → fi.owner = nm) ∧
      (env.groupName m.gid = none → fi.group = "Unknown") ∧
      (∀ nm, env.groupName m.gid = some nm → fi.group = nm) := by
  refine ⟨mkFileInfo env path m color, rfl, ?_, ?_, ?_, ?_⟩
  · intro h
    simp [mkFileInfo, h]
  · intro nm h
    simp [mkFileInfo, h]
  · intro h
    simp [mkFileInfo, h]
  · intro nm h
    simp [mkFileInfo, h]

/-- C8 witness: a database resolving uid 0 to root and no group ids:
the owner field carries the resolved name and the group field the
Unknown fallback. -/
theorem C8_witness :
    (mkFileInfo ⟨fun u => if u = 0 then some "root" else none, fun _ => none⟩ ["f"]
        ⟨false, 0, 5, 420⟩ Color.green).owner = "root" ∧
    (mkFileInfo ⟨fun u => if u = 0 then some "root" else none, fun _ => none⟩ ["f"]
        ⟨false, 0, 5, 420⟩ Color.green).group = "Unknown" := by
  obtain ⟨fi, hfi, h1, h2, h3, h4⟩ :=
    C8_unknown_fallback ⟨fun u => if u = 0 then some "root" else none, fun _ => none⟩ ["f"]
      ⟨false, 0, 5, 420⟩ Color.green
  simp only [create_file_info, Option.map_some', Option.some.injEq] at hfi
  rw [hfi]
  exact ⟨h2 "root" rfl, h3 rfl⟩

/-- C9: with no positional path arguments, the program prints the help
text and exits cleanly: stdout is the help text alone (no column
header, no listing, no fallback line) and stderr is empty. -/
theorem C9_no_paths_help (env : SysEnv) (metaOf : List String → Metadata) (helpText : String)
    (r x : Bool) :
    main env metaOf helpText ⟨[], r, x⟩ = ([helpText], []) ∧
    (helpText ≠ noEntriesLine → noEntriesLine ∉ (main env metaOf helpText ⟨[], r, x⟩).1) ∧
    (helpText ≠ headerLine → headerLine ∉ (main env metaOf helpText ⟨[], r, x⟩).1) := by
  refine ⟨rfl, ?_, ?_⟩
  · intro h hc
    rw [show (main env metaOf helpText ⟨[], r, x⟩).1 = [helpText] from rfl,
      List.mem_singleton] at hc
    exact h hc.symm
  · intro h hc
    rw [show (main env metaOf helpText ⟨[], r, x⟩).1 = [helpText] from rfl,
      List.mem_singleton] at hc
    exact h hc.symm

/-- C9 witness: the theorem at the usage string of the source: the help
text is printed alone and the fallback line does not appear. -/
theorem C9_witness :
    main ⟨fun _ => none, fun _ => none⟩ (fun _ => ⟨false, 0, 0, 0⟩)
        "Usage: bls <PATHS> <optional>" ⟨[], false, false⟩ =
      (["Usage: bls <PATHS> <optional>"], []) ∧
    noEntriesLine ∉ (main ⟨fun _ => none, fun _ => none⟩ (fun _ => ⟨false, 0, 0, 0⟩)
        "Usage: bls <PATHS> <optional>" ⟨[], false, false⟩).1 :=
  ⟨(C9_no_paths_help ⟨fun _ => none, fun _ => none⟩ (fun _ => ⟨false, 0, 0, 0⟩)
      "Usage: bls <PATHS> <optional>" false false).1,
   (C9_no_paths_help ⟨fun _ => none, fun _ => none⟩ (fun _ => ⟨false, 0, 0, 0⟩)
      "Usage: bls <PATHS> <optional>" false false).2.1 (by decide)⟩

/-- C10: list_files_and_dirs returns Ok for every input, so the error
branch of main — the stderr diagnostic line — is unreachable: stderr is
always empty. -/
theorem C10_never_err (env : SysEnv) (metaOf : List String → Metadata)
    (pairs : List (List String × FSTree)) (r x : Bool) :
    (list_files_and_dirs env metaOf pairs r x).2 = Except.ok () ∧
    ∀ (helpText : String) (inv : Invocation), (main env metaOf helpText inv).2 = [] := by
  refine ⟨rfl, ?_⟩
  intro helpText inv
  obtain ⟨ps, ir, ix⟩ := inv
  cases ps with
  | nil => rfl
  | cons p ps' => rfl

end Bls
